import Mathlib

set_option autoImplicit false

namespace KerasNLP

/-- Error taxonomy of the packer, as the spec names it: `ConfigurationError` for
invalid static configuration (the source raises `ValueError` at these points),
`ShapeError` for inconsistent example counts across segment batches. -/
inductive PackerError where
  | ConfigurationError : PackerError
  | ShapeError : PackerError
deriving DecidableEq, Repr

/-- Configuration state of `RobertaMultiSegmentPacker`, mirroring the fields the
source constructor stores (`sequence_length`, `start_value`, `end_value`,
`pad_value`, `truncate`). `sequence_length` is an `Int` because the source
constructor accepts any integer without validation. -/
structure Packer where
  sequence_length : Int
  start_value : Int
  end_value : Int
  pad_value : Int
  truncate : String
deriving DecidableEq, Repr

/-- Embedding of `RobertaMultiSegmentPacker.__init__`: the only validation the
source performs is that `truncate` is `"round_robin"` or `"waterfall"`;
otherwise it raises (`ValueError`, the spec's `ConfigurationError`). All other
arguments are stored unchecked. -/
def mkPacker (sequence_length : Int) (start_value : Int) (end_value : Int)
    (pad_value : Int) (truncate : String) : Except PackerError Packer :=
  if truncate = "round_robin" ∨ truncate = "waterfall" then
    Except.ok ⟨sequence_length, start_value, end_value, pad_value, truncate⟩
  else
    Except.error PackerError.ConfigurationError

/-- One left-to-right pass of the round-robin allocator over
`(allocated, original_length)` pairs: every segment still below its original
length receives one more unit while budget remains. Modelled from the spec:
`tf_text.RoundRobinTrimmer` is external to this repository; the spec specifies
"repeatedly scan segments left-to-right; at each segment still above zero
remaining allowed length, remove exactly one token from the end". -/
def rrRound : List (Nat × Nat) → Nat → List (Nat × Nat) × Nat
  | [], b => ([], b)
  | (a, l) :: rest, b =>
    if 0 < b ∧ a < l then
      let r := rrRound rest (b - 1)
      ((a + 1, l) :: r.1, r.2)
    else
      let r := rrRound rest b
      ((a, l) :: r.1, r.2)

/-- Iterate round-robin passes until a pass consumes no budget (all segments
exhausted or budget spent). Fuel `budget + 1` suffices since every productive
pass consumes at least one unit. -/
def rrIter : Nat → List (Nat × Nat) → Nat → List (Nat × Nat) × Nat
  | 0, pairs, b => (pairs, b)
  | fuel + 1, pairs, b =>
    let r := rrRound pairs b
    if r.2 = b then r else rrIter fuel r.1 r.2

/-- Per-example round-robin allocation: given the original segment lengths of
one example and a budget, the number of tokens each segment keeps. Modelled
from the spec (`tf_text.RoundRobinTrimmer` is external to this repository). -/
def roundRobinLens (lens : List Nat) (budget : Nat) : List Nat :=
  ((rrIter (budget + 1) (lens.map fun l => (0, l)) budget).1).map Prod.fst

/-- Per-example waterfall allocation: segments are served strictly left to
right, each taking `min length remaining_budget`. Modelled from the spec
(`tf_text.WaterfallTrimmer` is external to this repository). -/
def waterfallLens : List Nat → Nat → List Nat
  | [], _ => []
  | l :: rest, b => min l b :: waterfallLens rest (b - min l b)

/-- Dispatch on the truncate strategy for one example's segment lengths. -/
def trimRowLens (truncate : String) (budget : Nat) (lens : List Nat) : List Nat :=
  if truncate = "round_robin" then roundRobinLens lens budget
  else waterfallLens lens budget

/-- Original lengths of example `j`'s row in each of the segment batches. -/
def rowLensAt (inputs : List (List (List Int))) (j : Nat) : List Nat :=
  inputs.map fun seg => (seg.getD j []).length

/-- Trim every example: row `j` of segment batch `i` keeps the prefix of the
length allocated to segment `i` for example `j` (truncation removes tokens
from the end). -/
def trimAll (truncate : String) (budget : Nat)
    (inputs : List (List (List Int))) : List (List (List Int)) :=
  (List.range inputs.length).map fun i =>
    (List.range (inputs.getD i []).length).map fun j =>
      ((inputs.getD i []).getD j []).take
        ((trimRowLens truncate budget (rowLensAt inputs j)).getD i 0)

/-- Embedding of `RobertaMultiSegmentPacker._trim_inputs`: the budget is
`sequence_length - 2 * S` where `S` is the number of segment batches
(`num_special_tokens = 2 * len(inputs)` in the source); an unknown strategy
raises, and (modelled from the spec, the trimmers being external) a negative
budget fails with `ConfigurationError`. -/
def trim_inputs (p : Packer) (inputs : List (List (List Int))) :
    Except PackerError (List (List (List Int))) :=
  if p.truncate = "round_robin" ∨ p.truncate = "waterfall" then
    if p.sequence_length - 2 * inputs.length < 0 then
      Except.error PackerError.ConfigurationError
    else
      Except.ok (trimAll p.truncate (p.sequence_length - 2 * inputs.length).toNat inputs)
  else Except.error PackerError.ConfigurationError

/-- One combined example row, following the source loop in `_combine_inputs`:
for `i = 0` append `start_column, seg, end_column`, and for every later `i`
append `end_column, seg, end_column`. -/
def combineRow (p : Packer) (segs : List (List Int)) : List Int :=
  match segs with
  | [] => []
  | s0 :: rest =>
    ([p.start_value] ++ s0 ++ [p.end_value]) ++
      (rest.map fun s => [p.end_value] ++ s ++ [p.end_value]).flatten

/-- Embedding of `RobertaMultiSegmentPacker._combine_inputs`: per-example
concatenation of boundary columns and segments. Modelled from the spec for the
failure case: `tf.concat` (external) fails when the segment batches have
mismatched example counts, the spec's `ShapeError`. -/
def combine_inputs (p : Packer) (segments : List (List (List Int))) :
    Except PackerError (List (List Int)) :=
  match segments with
  | [] => Except.error PackerError.ShapeError
  | s0 :: rest =>
    if rest.all fun s => s.length = s0.length then
      Except.ok ((List.range s0.length).map fun j =>
        combineRow p ((s0 :: rest).map fun s => s.getD j []))
    else Except.error PackerError.ShapeError

/-- `RaggedTensor.to_tensor(shape=[-1, n], default_value=pad)` on one row:
truncate on the right to `n` entries, then right-pad with `pad` to exactly
`n` entries. -/
def padToLength (n : Nat) (pad : Int) (row : List Int) : List Int :=
  row.take n ++ List.replicate (n - row.length) pad

/-- Embedding of `RobertaMultiSegmentPacker.call` on a rank-2 (batched) input:
trim, combine, and pad every row to `sequence_length`. -/
def call2 (p : Packer) (inputs : List (List (List Int))) :
    Except PackerError (List (List Int)) := do
  let segments ← trim_inputs p inputs
  let token_ids ← combine_inputs p segments
  return token_ids.map (padToLength p.sequence_length.toNat p.pad_value)

/-- Embedding of `RobertaMultiSegmentPacker.call` on a rank-1 (single example)
input: the source adds a batch dimension of one, runs the batched path, and
squeezes the batch dimension away. -/
def call1 (p : Packer) (inputs : List (List Int)) :
    Except PackerError (List Int) := do
  let rows ← call2 p (inputs.map fun x => [x])
  match rows with
  | [row] => return row
  | _ => Except.error PackerError.ShapeError

theorem rrRound_budget_le (pairs : List (Nat × Nat)) (b : Nat) :
    (rrRound pairs b).2 ≤ b := by
  induction pairs generalizing b with
  | nil => simp [rrRound]
  | cons hd tl ih =>
    obtain ⟨a, l⟩ := hd
    simp only [rrRound]
    split
    · exact le_trans (ih (b - 1)) (Nat.sub_le b 1)
    · exact ih b

theorem rrRound_sum (pairs : List (Nat × Nat)) (b : Nat) :
    ((rrRound pairs b).1.map Prod.fst).sum + (rrRound pairs b).2
      = (pairs.map Prod.fst).sum + b := by
  induction pairs generalizing b with
  | nil => simp [rrRound]
  | cons hd tl ih =>
    obtain ⟨a, l⟩ := hd
    simp only [rrRound]
    split
    · rename_i h
      have := ih (b - 1)
      simp only [List.map_cons, List.sum_cons]
      omega
    · have := ih b
      simp only [List.map_cons, List.sum_cons]
      omega

theorem rrRound_snd_map (pairs : List (Nat × Nat)) (b : Nat) :
    (rrRound pairs b).1.map Prod.snd = pairs.map Prod.snd := by
  induction pairs generalizing b with
  | nil => simp [rrRound]
  | cons hd tl ih =>
    obtain ⟨a, l⟩ := hd
    simp only [rrRound]
    split
    · simp [ih]
    · simp [ih]

theorem rrRound_le (pairs : List (Nat × Nat)) (b : Nat)
    (h : ∀ pr ∈ pairs, pr.1 ≤ pr.2) :
    ∀ pr ∈ (rrRound pairs b).1, pr.1 ≤ pr.2 := by
  induction pairs generalizing b with
  | nil => simp [rrRound]
  | cons hd tl ih =>
    obtain ⟨a, l⟩ := hd
    simp only [rrRound]
    split
    · rename_i hc
      intro pr hpr
      rcases List.mem_cons.mp hpr with h1 | h2
      · subst h1; exact hc.2
      · exact ih (b - 1) (fun q hq => h q (List.mem_cons_of_mem _ hq)) _ h2
    · intro pr hpr
      rcases List.mem_cons.mp hpr with h1 | h2
      · subst h1; exact h (a, l) (List.mem_cons_self _ _)
      · exact ih b (fun q hq => h q (List.mem_cons_of_mem _ hq)) _ h2

theorem rrRound_zero (pairs : List (Nat × Nat)) :
    rrRound pairs 0 = (pairs, 0) := by
  induction pairs with
  | nil => rfl
  | cons hd tl ih =>
    obtain ⟨a, l⟩ := hd
    simp [rrRound, ih]

theorem rrRound_saturated (pairs : List (Nat × Nat)) (b : Nat)
    (h : ∀ pr ∈ pairs, ¬ pr.1 < pr.2) :
    rrRound pairs b = (pairs, b) := by
  induction pairs with
  | nil => rfl
  | cons hd tl ih =>
    obtain ⟨a, l⟩ := hd
    have hal : ¬ a < l := h (a, l) (List.mem_cons_self _ _)
    simp only [rrRound]
    rw [if_neg (by tauto)]
    rw [ih (fun q hq => h q (List.mem_cons_of_mem _ hq))]

theorem rrRound_fix (pairs : List (Nat × Nat)) (b : Nat)
    (hfix : (rrRound pairs b).2 = b) (hb : 0 < b) :
    ∀ pr ∈ pairs, ¬ pr.1 < pr.2 := by
  induction pairs generalizing b with
  | nil => simp
  | cons hd tl ih =>
    obtain ⟨a, l⟩ := hd
    simp only [rrRound] at hfix
    by_cases hc : 0 < b ∧ a < l
    · rw [if_pos hc] at hfix
      have := rrRound_budget_le tl (b - 1)
      simp only at hfix
      omega
    · rw [if_neg hc] at hfix
      intro pr hpr
      rcases List.mem_cons.mp hpr with h1 | h2
      · subst h1; intro hal; exact hc ⟨hb, hal⟩
      · exact ih b hfix hb _ h2

theorem rrIter_zero_budget (fuel : Nat) (pairs : List (Nat × Nat)) :
    rrIter fuel pairs 0 = (pairs, 0) := by
  cases fuel with
  | zero => rfl
  | succ f => simp [rrIter, rrRound_zero]

theorem rrIter_sum (fuel : Nat) (pairs : List (Nat × Nat)) (b : Nat) :
    ((rrIter fuel pairs b).1.map Prod.fst).sum + (rrIter fuel pairs b).2
      = (pairs.map Prod.fst).sum + b := by
  induction fuel generalizing pairs b with
  | zero => rfl
  | succ f ih =>
    simp only [rrIter]
    split
    · exact rrRound_sum pairs b
    · rw [ih]
      exact rrRound_sum pairs b

theorem rrIter_budget_le (fuel : Nat) (pairs : List (Nat × Nat)) (b : Nat) :
    (rrIter fuel pairs b).2 ≤ b := by
  induction fuel generalizing pairs b with
  | zero => exact le_refl b
  | succ f ih =>
    simp only [rrIter]
    split
    · rename_i h; exact le_of_eq h
    · exact le_trans (ih _ _) (rrRound_budget_le pairs b)

theorem rrIter_snd_map (fuel : Nat) (pairs : List (Nat × Nat)) (b : Nat) :
    (rrIter fuel pairs b).1.map Prod.snd = pairs.map Prod.snd := by
  induction fuel generalizing pairs b with
  | zero => rfl
  | succ f ih =>
    simp only [rrIter]
    split
    · exact rrRound_snd_map pairs b
    · rw [ih]
      exact rrRound_snd_map pairs b

theorem rrIter_le (fuel : Nat) (pairs : List (Nat × Nat)) (b : Nat)
    (h : ∀ pr ∈ pairs, pr.1 ≤ pr.2) :
    ∀ pr ∈ (rrIter fuel pairs b).1, pr.1 ≤ pr.2 := by
  induction fuel generalizing pairs b with
  | zero => exact h
  | succ f ih =>
    simp only [rrIter]
    split
    · exact rrRound_le pairs b h
    · exact ih _ _ (rrRound_le pairs b h)

theorem rrIter_saturates (fuel : Nat) (pairs : List (Nat × Nat)) (b : Nat)
    (hfuel : b < fuel) (hne : (rrIter fuel pairs b).2 ≠ 0) :
    ∀ pr ∈ (rrIter fuel pairs b).1, ¬ pr.1 < pr.2 := by
  induction fuel generalizing pairs b with
  | zero => omega
  | succ f ih =>
    simp only [rrIter]
    split
    · rename_i hfix
      simp only [rrIter] at hne
      rw [if_pos hfix] at hne
      have hb : 0 < b := by
        rcases Nat.eq_zero_or_pos b with h0 | h0
        · subst h0
          rw [rrRound_zero] at hfix hne
          exact absurd hfix (by simp at hne)
        · exact h0
      have hsat := rrRound_fix pairs b hfix hb
      rw [rrRound_saturated pairs b hsat]
      exact hsat
    · rename_i hfix
      simp only [rrIter] at hne
      rw [if_neg hfix] at hne
      have h2 : (rrRound pairs b).2 < b :=
        lt_of_le_of_ne (rrRound_budget_le pairs b) hfix
      exact ih _ _ (by omega) hne

theorem rrIter_length (fuel : Nat) (pairs : List (Nat × Nat)) (b : Nat) :
    (rrIter fuel pairs b).1.length = pairs.length := by
  have h := congrArg List.length (rrIter_snd_map fuel pairs b)
  simpa using h

theorem roundRobinLens_length (lens : List Nat) (b : Nat) :
    (roundRobinLens lens b).length = lens.length := by
  simp [roundRobinLens, rrIter_length]

theorem roundRobinLens_snd (lens : List Nat) (b : Nat) :
    (rrIter (b + 1) (lens.map fun l => (0, l)) b).1.map Prod.snd = lens := by
  rw [rrIter_snd_map]
  simp

theorem roundRobinLens_init_le (lens : List Nat) :
    ∀ pr ∈ lens.map fun l => (0, l), pr.1 ≤ pr.2 := by
  intro pr hpr
  rcases List.mem_map.mp hpr with ⟨l, _, rfl⟩
  exact Nat.zero_le l

theorem roundRobinLens_getD_le (lens : List Nat) (b i : Nat) :
    (roundRobinLens lens b).getD i 0 ≤ lens.getD i 0 := by
  by_cases hi : i < lens.length
  · have hlen : i < (roundRobinLens lens b).length := by
      rw [roundRobinLens_length]; exact hi
    have hlen2 : i < (rrIter (b + 1) (lens.map fun l => (0, l)) b).1.length := by
      simpa [roundRobinLens] using hlen
    rw [List.getD_eq_getElem _ _ hlen, List.getD_eq_getElem _ _ hi]
    have hmem := List.getElem_mem hlen2
    have h1 := rrIter_le (b + 1) (lens.map fun l => (0, l)) b
      (roundRobinLens_init_le lens) _ hmem
    have h2 : ((rrIter (b + 1) (lens.map fun l => (0, l)) b).1[i]).2
        = lens[i] := by
      have := congrArg (fun t => t.getD i 0) (roundRobinLens_snd lens b)
      simp only at this
      rw [List.getD_eq_getElem _ _ (by simpa [rrIter_length] using hi),
        List.getD_eq_getElem _ _ hi] at this
      simpa using this
    have h3 : (roundRobinLens lens b)[i]
        = ((rrIter (b + 1) (lens.map fun l => (0, l)) b).1[i]).1 := by
      simp [roundRobinLens]
    rw [h3, ← h2]
    exact h1
  · rw [List.getD_eq_default _ _ (by rw [roundRobinLens_length]; omega)]
    exact Nat.zero_le _

theorem roundRobinLens_sum_le_lens (lens : List Nat) (b : Nat) :
    (roundRobinLens lens b).sum ≤ lens.sum := by
  have h1 : roundRobinLens lens b
      = (rrIter (b + 1) (lens.map fun l => (0, l)) b).1.map Prod.fst := rfl
  have h2 := roundRobinLens_snd lens b
  calc (roundRobinLens lens b).sum
      = ((rrIter (b + 1) (lens.map fun l => (0, l)) b).1.map Prod.fst).sum := by rw [h1]
    _ ≤ ((rrIter (b + 1) (lens.map fun l => (0, l)) b).1.map Prod.snd).sum :=
        List.sum_le_sum (rrIter_le (b + 1) _ b (roundRobinLens_init_le lens))
    _ = lens.sum := by rw [h2]

theorem sum_map_fst_init (lens : List Nat) :
    ((lens.map fun l => (0, l)).map Prod.fst).sum = 0 := by
  induction lens with
  | nil => rfl
  | cons h t ih => simpa using ih

theorem roundRobinLens_sum (lens : List Nat) (b : Nat) :
    (roundRobinLens lens b).sum = min lens.sum b := by
  have hsum := rrIter_sum (b + 1) (lens.map fun l => (0, l)) b
  rw [sum_map_fst_init] at hsum
  have hle := rrIter_budget_le (b + 1) (lens.map fun l => (0, l)) b
  by_cases hf : (rrIter (b + 1) (lens.map fun l => (0, l)) b).2 = 0
  · have h1 : (roundRobinLens lens b).sum = b := by
      have : (roundRobinLens lens b).sum
          = ((rrIter (b + 1) (lens.map fun l => (0, l)) b).1.map Prod.fst).sum := rfl
      omega
    have h2 := roundRobinLens_sum_le_lens lens b
    omega
  · have hsat := rrIter_saturates (b + 1) (lens.map fun l => (0, l)) b (by omega) hf
    have hmaps : (rrIter (b + 1) (lens.map fun l => (0, l)) b).1.map Prod.fst
        = (rrIter (b + 1) (lens.map fun l => (0, l)) b).1.map Prod.snd := by
      apply List.map_congr_left
      intro pr hpr
      have hge := hsat pr hpr
      have hle2 := rrIter_le (b + 1) _ b (roundRobinLens_init_le lens) pr hpr
      omega
    have heq : (roundRobinLens lens b).sum = lens.sum := by
      have : (roundRobinLens lens b).sum
          = ((rrIter (b + 1) (lens.map fun l => (0, l)) b).1.map Prod.fst).sum := rfl
      rw [this, hmaps, roundRobinLens_snd]
    rw [heq]
    have hb : lens.sum + (rrIter (b + 1) (lens.map fun l => (0, l)) b).2 = b := by
      have h3 : ((rrIter (b + 1) (lens.map fun l => (0, l)) b).1.map Prod.fst).sum
          = lens.sum := by rw [hmaps, roundRobinLens_snd]
      omega
    omega

theorem rrRound_replicate_ge (S a l b : Nat) (h : l ≤ a) :
    rrRound (List.replicate S (a, l)) b = (List.replicate S (a, l), b) := by
  apply rrRound_saturated
  intro pr hpr
  rw [List.eq_of_mem_replicate hpr]
  omega

theorem rrRound_replicate_lt (S a l : Nat) (h : a < l) :
    ∀ b, rrRound (List.replicate S (a, l)) b
      = (List.replicate (min S b) (a + 1, l) ++ List.replicate (S - min S b) (a, l),
         b - min S b) := by
  induction S with
  | zero => intro b; simp [rrRound]
  | succ S ih =>
    intro b
    rw [List.replicate_succ]
    cases b with
    | zero =>
      simp only [rrRound]
      rw [if_neg (by omega)]
      rw [rrRound_zero]
      simp [List.replicate_succ]
    | succ b' =>
      simp only [rrRound]
      rw [if_pos ⟨Nat.succ_pos b', h⟩]
      have hsub : b' + 1 - 1 = b' := rfl
      rw [hsub, ih b']
      have hmin : min (S + 1) (b' + 1) = min S b' + 1 := Nat.succ_min_succ S b'
      rw [hmin]
      have h1 : S + 1 - (min S b' + 1) = S - min S b' := by omega
      have h2 : b' + 1 - (min S b' + 1) = b' - min S b' := by omega
      rw [h1, h2]
      simp [List.replicate_succ]

theorem rrIter_replicate (fuel : Nat) :
    ∀ (S a l b : Nat), ∃ v k m, k + m = S ∧
      (rrIter fuel (List.replicate S (a, l)) b).1
        = List.replicate k (v + 1, l) ++ List.replicate m (v, l) := by
  induction fuel with
  | zero =>
    intro S a l b
    exact ⟨a, 0, S, by omega, by simp [rrIter]⟩
  | succ f ih =>
    intro S a l b
    by_cases hal : l ≤ a
    · refine ⟨a, 0, S, by omega, ?_⟩
      simp only [rrIter]
      rw [rrRound_replicate_ge S a l b hal]
      simp
    · have hlt : a < l := by omega
      have hr := rrRound_replicate_lt S a l hlt b
      by_cases hmin0 : min S b = 0
      · refine ⟨a, 0, S, by omega, ?_⟩
        simp only [rrIter]
        rw [hr]
        simp only [hmin0]
        rw [if_pos (by omega)]
        simp
      · simp only [rrIter]
        rw [hr]
        rw [if_neg (by simp only; omega)]
        by_cases hSb : S ≤ b
        · have hm : min S b = S := by omega
          rw [hm]
          simp only [Nat.sub_self, List.replicate_zero, List.append_nil]
          exact ih S (a + 1) l (b - S)
        · have hm : min S b = b := by omega
          rw [hm]
          simp only [Nat.sub_self]
          rw [rrIter_zero_budget]
          exact ⟨a, b, S - b, by omega, rfl⟩

theorem roundRobinLens_replicate_fair (S L b : Nat) :
    ∀ x ∈ roundRobinLens (List.replicate S L) b,
      ∀ y ∈ roundRobinLens (List.replicate S L) b, x ≤ y + 1 := by
  have hmap : (List.replicate S L).map (fun l => (0, l))
      = List.replicate S ((0 : Nat), L) := List.map_replicate
  obtain ⟨v, k, m, -, heq⟩ := rrIter_replicate (b + 1) S 0 L b
  intro x hx y hy
  rw [roundRobinLens, hmap, heq] at hx hy
  rw [List.map_append] at hx hy
  have hval : ∀ z, z ∈ (List.replicate k ((v + 1), L)).map Prod.fst ++
      (List.replicate m (v, L)).map Prod.fst → z = v + 1 ∨ z = v := by
    intro z hz
    rcases List.mem_append.mp hz with hz1 | hz1
    · rcases List.mem_map.mp hz1 with ⟨pr, hpr, rfl⟩
      rw [List.eq_of_mem_replicate hpr]
      exact Or.inl rfl
    · rcases List.mem_map.mp hz1 with ⟨pr, hpr, rfl⟩
      rw [List.eq_of_mem_replicate hpr]
      exact Or.inr rfl
  rcases hval x hx with rfl | rfl <;> rcases hval y hy with rfl | rfl <;> omega

theorem waterfallLens_length (lens : List Nat) (b : Nat) :
    (waterfallLens lens b).length = lens.length := by
  induction lens generalizing b with
  | nil => rfl
  | cons l rest ih => simp [waterfallLens, ih]

theorem waterfallLens_sum_le (lens : List Nat) (b : Nat) :
    (waterfallLens lens b).sum ≤ b := by
  induction lens generalizing b with
  | nil => simp [waterfallLens]
  | cons l rest ih =>
    simp only [waterfallLens, List.sum_cons]
    have h := ih (b - min l b)
    omega

theorem waterfallLens_getD_le (lens : List Nat) (b i : Nat) :
    (waterfallLens lens b).getD i 0 ≤ lens.getD i 0 := by
  induction lens generalizing b i with
  | nil => simp [waterfallLens]
  | cons l rest ih =>
    cases i with
    | zero => simp [waterfallLens]
    | succ i => simpa [waterfallLens] using ih (b - min l b) i

theorem waterfallLens_getD (lens : List Nat) (b : Nat) :
    ∀ i, i < lens.length →
      (waterfallLens lens b).getD i 0
        = min (lens.getD i 0) (b - ((waterfallLens lens b).take i).sum) := by
  induction lens generalizing b with
  | nil => simp
  | cons l rest ih =>
    intro i hi
    cases i with
    | zero => simp [waterfallLens]
    | succ i =>
      simp only [waterfallLens, List.getD_cons_succ, List.take_succ_cons,
        List.sum_cons]
      rw [ih (b - min l b) i (by simpa using hi)]
      congr 1
      omega

theorem sum_take_mono (l : List Nat) (i k : Nat) (h : i ≤ k) :
    (l.take i).sum ≤ (l.take k).sum := by
  have hk : k = i + (k - i) := by omega
  rw [hk, List.take_add l i (k - i), List.sum_append]
  omega

theorem sum_take_le_sum (l : List Nat) (i : Nat) : (l.take i).sum ≤ l.sum := by
  have h := List.sum_take_add_sum_drop l i
  omega

theorem waterfallLens_zero_after (lens : List Nat) (b : Nat) (i k : Nat)
    (hsum : ((waterfallLens lens b).take i).sum = b) (hik : i ≤ k) :
    (waterfallLens lens b).getD k 0 = 0 := by
  by_cases hk : k < lens.length
  · have h1 : ((waterfallLens lens b).take k).sum = b := by
      have h2 := sum_take_mono (waterfallLens lens b) i k hik
      have h3 := sum_take_le_sum (waterfallLens lens b) k
      have h4 := waterfallLens_sum_le lens b
      omega
    rw [waterfallLens_getD lens b k hk, h1]
    simp
  · rw [List.getD_eq_default _ _ (by rw [waterfallLens_length]; omega)]

theorem trimRowLens_length (tr : String) (b : Nat) (lens : List Nat) :
    (trimRowLens tr b lens).length = lens.length := by
  rw [trimRowLens]
  split
  · exact roundRobinLens_length lens b
  · exact waterfallLens_length lens b

theorem trimRowLens_sum_le (tr : String) (b : Nat) (lens : List Nat) :
    (trimRowLens tr b lens).sum ≤ b := by
  rw [trimRowLens]
  split
  · rw [roundRobinLens_sum]; omega
  · exact waterfallLens_sum_le lens b

theorem trimRowLens_getD_le (tr : String) (b : Nat) (lens : List Nat) (i : Nat) :
    (trimRowLens tr b lens).getD i 0 ≤ lens.getD i 0 := by
  rw [trimRowLens]
  split
  · exact roundRobinLens_getD_le lens b i
  · exact waterfallLens_getD_le lens b i

theorem sum_le_sum_of_getD (l1 l2 : List Nat) (hlen : l1.length ≤ l2.length)
    (h : ∀ i, l1.getD i 0 ≤ l2.getD i 0) : l1.sum ≤ l2.sum := by
  induction l1 generalizing l2 with
  | nil => simp
  | cons a t ih =>
    cases l2 with
    | nil => simp at hlen
    | cons b t2 =>
      simp only [List.sum_cons]
      have h0 := h 0
      simp only [List.getD_cons_zero] at h0
      have ht := ih t2 (by simpa using hlen) (fun i => by
        have := h (i + 1)
        simpa using this)
      omega

theorem trimAll_length (tr : String) (b : Nat) (inputs : List (List (List Int))) :
    (trimAll tr b inputs).length = inputs.length := by
  simp [trimAll]

theorem trimAll_getD (tr : String) (b : Nat) (inputs : List (List (List Int)))
    (i : Nat) (hi : i < inputs.length) :
    (trimAll tr b inputs).getD i []
      = (List.range (inputs.getD i []).length).map fun j =>
          ((inputs.getD i []).getD j []).take
            ((trimRowLens tr b (rowLensAt inputs j)).getD i 0) := by
  rw [List.getD_eq_getElem _ _ (by rw [trimAll_length]; exact hi)]
  simp [trimAll]

theorem trimAll_inner_length (tr : String) (b : Nat)
    (inputs : List (List (List Int))) (i : Nat) (hi : i < inputs.length) :
    ((trimAll tr b inputs).getD i []).length = (inputs.getD i []).length := by
  rw [trimAll_getD tr b inputs i hi]
  simp

theorem trimAll_row (tr : String) (b : Nat) (inputs : List (List (List Int)))
    (i j : Nat) (hi : i < inputs.length) (hj : j < (inputs.getD i []).length) :
    ((trimAll tr b inputs).getD i []).getD j []
      = ((inputs.getD i []).getD j []).take
          ((trimRowLens tr b (rowLensAt inputs j)).getD i 0) := by
  rw [trimAll_getD tr b inputs i hi]
  rw [List.getD_eq_getElem _ _ (by simpa using hj)]
  simp

theorem trimAll_map_length (tr : String) (b : Nat)
    (inputs : List (List (List Int))) :
    (trimAll tr b inputs).map List.length = inputs.map List.length := by
  apply List.ext_getElem
  · simp [trimAll_length]
  · intro i h1 h2
    simp only [List.getElem_map]
    have hi : i < inputs.length := by simpa using h2
    have h3 := trimAll_inner_length tr b inputs i hi
    rw [List.getD_eq_getElem _ _ (by rw [trimAll_length]; exact hi),
      List.getD_eq_getElem _ _ hi] at h3
    exact h3

theorem rowLensAt_length (inputs : List (List (List Int))) (j : Nat) :
    (rowLensAt inputs j).length = inputs.length := by
  simp [rowLensAt]

theorem rowLensAt_getD (inputs : List (List (List Int))) (j i : Nat)
    (hi : i < inputs.length) :
    (rowLensAt inputs j).getD i 0 = ((inputs.getD i []).getD j []).length := by
  rw [rowLensAt, List.getD_eq_getElem _ _ (by simpa using hi),
    List.getD_eq_getElem _ _ hi]
  simp

theorem rowLensAt_trimAll_getD_le (tr : String) (b : Nat)
    (inputs : List (List (List Int))) (j i : Nat) :
    (rowLensAt (trimAll tr b inputs) j).getD i 0
      ≤ (trimRowLens tr b (rowLensAt inputs j)).getD i 0 := by
  by_cases hi : i < inputs.length
  · have h1 : (rowLensAt (trimAll tr b inputs) j).getD i 0
        = (((trimAll tr b inputs).getD i []).getD j []).length := by
      rw [rowLensAt_getD _ j i (by rw [trimAll_length]; exact hi)]
    by_cases hj : j < (inputs.getD i []).length
    · rw [h1, trimAll_row tr b inputs i j hi hj]
      rw [List.length_take]
      omega
    · have h2 : ((trimAll tr b inputs).getD i []).getD j [] = [] := by
        apply List.getD_eq_default
        rw [trimAll_inner_length tr b inputs i hi]
        omega
      rw [h1, h2]
      simp
  · rw [List.getD_eq_default _ _ (by rw [rowLensAt_length, trimAll_length]; omega)]
    exact Nat.zero_le _

theorem trimAll_row_sum_le (tr : String) (b : Nat)
    (inputs : List (List (List Int))) (j : Nat) :
    (rowLensAt (trimAll tr b inputs) j).sum ≤ b := by
  refine le_trans (sum_le_sum_of_getD _ (trimRowLens tr b (rowLensAt inputs j))
    ?_ (rowLensAt_trimAll_getD_le tr b inputs j)) (trimRowLens_sum_le tr b _)
  rw [rowLensAt_length, trimAll_length, trimRowLens_length, rowLensAt_length]

theorem sum_map_add_const {α : Type} (l : List α) (f : α → Nat) (c : Nat) :
    (l.map fun x => f x + c).sum = (l.map f).sum + c * l.length := by
  induction l with
  | nil => simp
  | cons a t ih =>
    simp only [List.map_cons, List.sum_cons, ih, List.length_cons]
    ring

theorem combineRow_length (p : Packer) (segs : List (List Int)) :
    (combineRow p segs).length = 2 * segs.length + (segs.map List.length).sum := by
  cases segs with
  | nil => simp [combineRow]
  | cons s0 rest =>
    simp only [combineRow, List.length_append, List.length_flatten,
      List.map_map, List.length_cons, List.map_cons, List.sum_cons,
      List.length_singleton, List.length_nil]
    have h1 : (rest.map (List.length ∘ fun s => [p.end_value] ++ s ++ [p.end_value]))
        = rest.map fun s => s.length + 2 := by
      apply List.map_congr_left
      intro s _
      simp
    rw [h1, sum_map_add_const rest List.length 2]
    omega

theorem padToLength_length (n : Nat) (pad : Int) (row : List Int) :
    (padToLength n pad row).length = n := by
  simp only [padToLength, List.length_append, List.length_take,
    List.length_replicate]
  omega

theorem except_bind_ok {ε α β : Type} {x : Except ε α} {f : α → Except ε β}
    {b : β} (h : (x >>= f) = Except.ok b) :
    ∃ a, x = Except.ok a ∧ f a = Except.ok b := by
  cases x with
  | error e => exact Except.noConfusion h
  | ok a => exact ⟨a, rfl, h⟩

theorem except_bind_error {ε α β : Type} (x : Except ε α) (f : α → Except ε β)
    (e : ε) (h : x = Except.error e) : (x >>= f) = Except.error e := by
  subst h
  rfl

theorem trim_inputs_ok_elim {p : Packer} {inputs trimmed : List (List (List Int))}
    (h : trim_inputs p inputs = Except.ok trimmed) :
    (p.truncate = "round_robin" ∨ p.truncate = "waterfall") ∧
    0 ≤ p.sequence_length - 2 * inputs.length ∧
    trimmed = trimAll p.truncate (p.sequence_length - 2 * inputs.length).toNat inputs := by
  unfold trim_inputs at h
  split at h
  · split at h
    · exact Except.noConfusion h
    · rename_i h1 h2
      exact ⟨h1, by omega, (Except.ok.inj h).symm⟩
  · exact Except.noConfusion h

theorem trim_inputs_eq_ok {p : Packer} {inputs : List (List (List Int))}
    (h1 : p.truncate = "round_robin" ∨ p.truncate = "waterfall")
    (h2 : 0 ≤ p.sequence_length - 2 * inputs.length) :
    trim_inputs p inputs
      = Except.ok (trimAll p.truncate (p.sequence_length - 2 * inputs.length).toNat inputs) := by
  unfold trim_inputs
  rw [if_pos h1, if_neg (by omega)]

theorem trim_inputs_neg_budget {p : Packer} {inputs : List (List (List Int))}
    (h : p.sequence_length - 2 * inputs.length < 0) :
    trim_inputs p inputs = Except.error PackerError.ConfigurationError := by
  unfold trim_inputs
  by_cases h1 : p.truncate = "round_robin" ∨ p.truncate = "waterfall"
  · rw [if_pos h1, if_pos h]
  · rw [if_neg h1]

theorem combine_inputs_ok_elim {p : Packer} {segments : List (List (List Int))}
    {rows : List (List Int)} (h : combine_inputs p segments = Except.ok rows) :
    ∃ s0 rest, segments = s0 :: rest ∧ (∀ s ∈ rest, s.length = s0.length) ∧
      rows = (List.range s0.length).map fun j =>
        combineRow p (segments.map fun s => s.getD j []) := by
  cases segments with
  | nil => exact Except.noConfusion h
  | cons s0 rest =>
    refine ⟨s0, rest, rfl, ?_, ?_⟩
    · simp only [combine_inputs] at h
      split at h
      · rename_i hall
        intro s hs
        have := List.all_eq_true.mp hall s hs
        exact of_decide_eq_true this
      · exact Except.noConfusion h
    · simp only [combine_inputs] at h
      split at h
      · exact (Except.ok.inj h).symm
      · exact Except.noConfusion h

theorem combine_inputs_mismatch {p : Packer} {s0 : List (List Int)}
    {rest : List (List (List Int))}
    (h : ∃ s ∈ rest, s.length ≠ s0.length) :
    combine_inputs p (s0 :: rest) = Except.error PackerError.ShapeError := by
  simp only [combine_inputs]
  rw [if_neg]
  intro hall
  obtain ⟨s, hs, hne⟩ := h
  exact hne (of_decide_eq_true (List.all_eq_true.mp hall s hs))

theorem call2_ok_elim {p : Packer} {inputs : List (List (List Int))}
    {rows : List (List Int)} (h : call2 p inputs = Except.ok rows) :
    ∃ trimmed combined,
      trim_inputs p inputs = Except.ok trimmed ∧
      combine_inputs p trimmed = Except.ok combined ∧
      rows = combined.map (padToLength p.sequence_length.toNat p.pad_value) := by
  unfold call2 at h
  obtain ⟨trimmed, h1, h2⟩ := except_bind_ok h
  obtain ⟨combined, h3, h4⟩ := except_bind_ok h2
  exact ⟨trimmed, combined, h1, h3, (Except.ok.inj h4).symm⟩

theorem call2_eq_ok {p : Packer} {inputs trimmed : List (List (List Int))}
    {combined : List (List Int)}
    (h1 : trim_inputs p inputs = Except.ok trimmed)
    (h2 : combine_inputs p trimmed = Except.ok combined) :
    call2 p inputs
      = Except.ok (combined.map (padToLength p.sequence_length.toNat p.pad_value)) := by
  unfold call2
  rw [h1]
  show combine_inputs p trimmed >>= _ = _
  rw [h2]
  rfl

theorem call2_error_of_trim {p : Packer} {inputs : List (List (List Int))}
    {e : PackerError} (h : trim_inputs p inputs = Except.error e) :
    call2 p inputs = Except.error e := by
  unfold call2
  rw [h]
  rfl

theorem call2_error_of_combine {p : Packer} {inputs trimmed : List (List (List Int))}
    {e : PackerError} (h1 : trim_inputs p inputs = Except.ok trimmed)
    (h2 : combine_inputs p trimmed = Except.error e) :
    call2 p inputs = Except.error e := by
  unfold call2
  rw [h1]
  show combine_inputs p trimmed >>= _ = _
  rw [h2]
  rfl

theorem call1_ok_elim {p : Packer} {inputs : List (List Int)} {row : List Int}
    (h : call1 p inputs = Except.ok row) :
    call2 p (inputs.map fun x => [x]) = Except.ok [row] := by
  unfold call1 at h
  obtain ⟨rows, h1, h2⟩ := except_bind_ok h
  match rows, h2 with
  | [r], h2 =>
    have : r = row := Except.ok.inj h2
    subst this
    exact h1
  | [], h2 => exact Except.noConfusion h2
  | r1 :: r2 :: rs, h2 => exact Except.noConfusion h2

theorem range_map_getD (l : List (List Int)) :
    (List.range l.length).map (fun j => l.getD j []) = l := by
  apply List.ext_getElem
  · simp
  · intro i h1 h2
    simp only [List.getElem_map, List.getElem_range]
    rw [List.getD_eq_getElem _ _ h2]

theorem double_end_tail (e : Int) (rest : List (List Int)) :
    [e] ++ (rest.map fun s => [e] ++ s ++ [e]).flatten
      = (rest.map fun s => [e, e] ++ s).flatten ++ [e] := by
  induction rest with
  | nil => rfl
  | cons t ts ih =>
    simp only [List.map_cons, List.flatten_cons]
    calc [e] ++ ([e] ++ t ++ [e] ++ (ts.map fun s => [e] ++ s ++ [e]).flatten)
        = ([e, e] ++ t) ++ ([e] ++ (ts.map fun s => [e] ++ s ++ [e]).flatten) := by
          simp
      _ = ([e, e] ++ t) ++ ((ts.map fun s => [e, e] ++ s).flatten ++ [e]) := by
          rw [ih]
      _ = ([e, e] ++ t ++ (ts.map fun s => [e, e] ++ s).flatten) ++ [e] := by
          simp

theorem call2_row_length {p : Packer} {inputs : List (List (List Int))}
    {rows : List (List Int)} (h : call2 p inputs = Except.ok rows) :
    ∀ row ∈ rows, (row.length : Int) = p.sequence_length := by
  obtain ⟨trimmed, combined, h1, h2, h3⟩ := call2_ok_elim h
  obtain ⟨hval, hbud, htrim⟩ := trim_inputs_ok_elim h1
  intro row hrow
  subst h3
  rcases List.mem_map.mp hrow with ⟨c, hc, rfl⟩
  rw [padToLength_length]
  omega

/-- C1: the double-end-token layout. `_combine_inputs` lays out every example
row as `start_value`, segment 0 tokens, then `end_value, end_value` followed by
the segment's tokens for every subsequent segment, and a single `end_value`
after the last segment; and the full `call` on segments `[1],[2],[3]` with
`start_value = 9`, `end_value = 8`, `pad_value = 0`, `sequence_length = 10`
produces exactly `[9,1,8,8,2,8,8,3,8,0]` after right-padding. -/
theorem roberta_double_end_layout :
    (∀ (p : Packer) (s0 : List Int) (rest : List (List Int)),
      combineRow p (s0 :: rest)
        = [p.start_value] ++ s0 ++
            ((rest.map fun s => [p.end_value, p.end_value] ++ s).flatten
              ++ [p.end_value]))
    ∧ call2 ⟨10, 9, 8, 0, "round_robin"⟩ [[[1]], [[2]], [[3]]]
        = Except.ok [[9, 1, 8, 8, 2, 8, 8, 3, 8, 0]] := by
  constructor
  · intro p s0 rest
    show ([p.start_value] ++ s0 ++ [p.end_value]) ++
        (rest.map fun s => [p.end_value] ++ s ++ [p.end_value]).flatten = _
    rw [List.append_assoc, List.append_assoc, List.append_assoc]
    congr 1
    congr 1
    exact double_end_tail p.end_value rest
  · rfl

/-- C2: every row of the `call` output has exactly `sequence_length` entries,
for batched (rank-2) input, and rank-1 input produces the single row that the
corresponding one-example batch would produce. -/
theorem roberta_output_width :
    (∀ (p : Packer) (inputs : List (List (List Int))) (rows : List (List Int)),
      call2 p inputs = Except.ok rows →
      ∀ row ∈ rows, (row.length : Int) = p.sequence_length)
    ∧ (∀ (p : Packer) (inputs : List (List Int)) (row : List Int),
      call1 p inputs = Except.ok row →
      call2 p (inputs.map fun x => [x]) = Except.ok [row] ∧
      (row.length : Int) = p.sequence_length) := by
  constructor
  · intro p inputs rows h
    exact call2_row_length h
  · intro p inputs row h
    have h2 := call1_ok_elim h
    exact ⟨h2, call2_row_length h2 row (List.mem_singleton_self row)⟩

/-- Witness for C2 at the concrete three-segment example: the single output
row has exactly 10 entries. -/
theorem roberta_output_width_witness :
    (([(9:Int), 1, 8, 8, 2, 8, 8, 3, 8, 0] : List Int).length : Int)
      = (⟨10, 9, 8, 0, "round_robin"⟩ : Packer).sequence_length :=
  roberta_output_width.1 ⟨10, 9, 8, 0, "round_robin"⟩ [[[1]], [[2]], [[3]]]
    [[9, 1, 8, 8, 2, 8, 8, 3, 8, 0]] rfl
    [(9:Int), 1, 8, 8, 2, 8, 8, 3, 8, 0] (List.mem_singleton_self _)

theorem combined_row_lens (trimmed : List (List (List Int))) (j : Nat) :
    (trimmed.map fun s => s.getD j []).map List.length = rowLensAt trimmed j := by
  rw [List.map_map]
  rfl

/-- C3: the trim budget is `sequence_length - 2 * S` (`num_special_tokens
= 2 * S`); after trimming, each example's total token count across the `S`
segments is at most the budget, and every combined row (which adds exactly
`2 * S` boundary tokens) has at most `sequence_length` entries before
padding. -/
theorem roberta_budget_fits :
    ∀ (p : Packer) (inputs trimmed : List (List (List Int)))
      (rows : List (List Int)),
      trim_inputs p inputs = Except.ok trimmed →
      combine_inputs p trimmed = Except.ok rows →
      0 ≤ p.sequence_length - 2 * inputs.length ∧
      (∀ j, ((rowLensAt trimmed j).sum : Int)
        ≤ p.sequence_length - 2 * inputs.length) ∧
      (∀ row ∈ rows, ∃ j,
        row.length = 2 * inputs.length + (rowLensAt trimmed j).sum ∧
        (row.length : Int) ≤ p.sequence_length) := by
  intro p inputs trimmed rows h1 h2
  obtain ⟨hval, hbud, htrim⟩ := trim_inputs_ok_elim h1
  have hsum : ∀ j, (rowLensAt trimmed j).sum
      ≤ (p.sequence_length - 2 * inputs.length).toNat := by
    intro j
    rw [htrim]
    exact trimAll_row_sum_le _ _ inputs j
  have hsumI : ∀ j, ((rowLensAt trimmed j).sum : Int)
      ≤ p.sequence_length - 2 * inputs.length := by
    intro j
    have := hsum j
    omega
  refine ⟨hbud, hsumI, ?_⟩
  intro row hrow
  obtain ⟨s0, rest, hcons, -, hrows⟩ := combine_inputs_ok_elim h2
  subst hrows
  rcases List.mem_map.mp hrow with ⟨j, -, rfl⟩
  have hlen : trimmed.length = inputs.length := by
    rw [htrim]
    exact trimAll_length _ _ inputs
  refine ⟨j, ?_, ?_⟩
  · rw [combineRow_length, combined_row_lens, List.length_map, hlen]
  · rw [combineRow_length, combined_row_lens, List.length_map, hlen]
    have := hsum j
    omega

/-- Witness for C3 at the concrete three-segment example. -/
theorem roberta_budget_fits_witness :
    ((rowLensAt ([[[(1:Int)]], [[2]], [[3]]]) 0).sum : Int)
      ≤ (⟨10, 9, 8, 0, "round_robin"⟩ : Packer).sequence_length
        - 2 * ([[[(1:Int)]], [[2]], [[3]]] : List (List (List Int))).length :=
  (roberta_budget_fits ⟨10, 9, 8, 0, "round_robin"⟩ [[[1]], [[2]], [[3]]]
    [[[1]], [[2]], [[3]]] [[9, 1, 8, 8, 2, 8, 8, 3, 8]] rfl rfl).2.1 0

theorem trimRowLens_waterfall (b : Nat) (lens : List Nat) :
    trimRowLens "waterfall" b lens = waterfallLens lens b := by
  rw [trimRowLens, if_neg (by decide)]

theorem trimRowLens_round_robin (b : Nat) (lens : List Nat) :
    trimRowLens "round_robin" b lens = roundRobinLens lens b := by
  rw [trimRowLens, if_pos rfl]

/-- C4: the waterfall trimmer serves segments strictly left to right: the
first segment keeps `min length budget` tokens, segment `i` keeps
`min length_i (budget - tokens already granted)`, every allocation after the
prefix that consumes the whole budget is `0`, and the trimmed row kept by
`_trim_inputs` is the allocated-length prefix of the original row (truncation
from the end). -/
theorem waterfall_allocation :
    (∀ (l : Nat) (rest : List Nat) (b : Nat),
      (waterfallLens (l :: rest) b).getD 0 0 = min l b)
    ∧ (∀ (lens : List Nat) (b i : Nat), i < lens.length →
      (waterfallLens lens b).getD i 0
        = min (lens.getD i 0) (b - ((waterfallLens lens b).take i).sum))
    ∧ (∀ (lens : List Nat) (b i k : Nat),
      ((waterfallLens lens b).take i).sum = b → i ≤ k →
      (waterfallLens lens b).getD k 0 = 0)
    ∧ (∀ (p : Packer) (inputs trimmed : List (List (List Int))) (i j : Nat),
      p.truncate = "waterfall" →
      trim_inputs p inputs = Except.ok trimmed →
      i < inputs.length → j < (inputs.getD i []).length →
      (trimmed.getD i []).getD j []
        = ((inputs.getD i []).getD j []).take
            ((waterfallLens (rowLensAt inputs j)
              (p.sequence_length - 2 * inputs.length).toNat).getD i 0)) := by
  refine ⟨?_, waterfallLens_getD, waterfallLens_zero_after, ?_⟩
  · intro l rest b
    simp [waterfallLens]
  · intro p inputs trimmed i j htr h hi hj
    obtain ⟨-, -, htrim⟩ := trim_inputs_ok_elim h
    subst htrim
    rw [trimAll_row _ _ inputs i j hi hj, htr, trimRowLens_waterfall]

/-- Witness for C4: budget-exhaustion zeroing at `lens = [3,2], b = 3`, and
the trimmed pipeline row at a concrete waterfall call. -/
theorem waterfall_allocation_witness :
    (waterfallLens [3, 2] 3).getD 1 0 = 0 ∧
    (([[[(5:Int), 6]], [[]]] : List (List (List Int))).getD 0 []).getD 0 []
      = ((([[[(5:Int), 6, 7]], [[8, 9]]] : List (List (List Int))).getD 0 []).getD 0 []).take
          ((waterfallLens (rowLensAt [[[(5:Int), 6, 7]], [[8, 9]]] 0)
            (((⟨6, 1, 2, 0, "waterfall"⟩ : Packer).sequence_length
              - 2 * ([[[(5:Int), 6, 7]], [[8, 9]]] : List (List (List Int))).length).toNat)).getD 0 0) :=
  ⟨waterfall_allocation.2.2.1 [3, 2] 3 1 1 (by decide) (by decide),
   waterfall_allocation.2.2.2 ⟨6, 1, 2, 0, "waterfall"⟩ [[[5, 6, 7]], [[8, 9]]]
     [[[5, 6]], [[]]] 0 0 rfl rfl (by decide) (by decide)⟩

/-- C5: the round-robin trimmer hands the budget out one unit per eligible
segment per left-to-right sweep: the total kept equals
`min (total content) budget` (it stops only on budget exhaustion or content
exhaustion), no segment keeps more than its original length, segments of equal
original length end within one token of each other, and the trimmed row kept
by `_trim_inputs` is the allocated-length prefix of the original row
(truncation from the end). -/
theorem round_robin_allocation :
    (∀ (lens : List Nat) (b : Nat), (roundRobinLens lens b).sum = min lens.sum b)
    ∧ (∀ (lens : List Nat) (b i : Nat),
      (roundRobinLens lens b).getD i 0 ≤ lens.getD i 0)
    ∧ (∀ (S L b : Nat), ∀ x ∈ roundRobinLens (List.replicate S L) b,
      ∀ y ∈ roundRobinLens (List.replicate S L) b, x ≤ y + 1)
    ∧ (∀ (p : Packer) (inputs trimmed : List (List (List Int))) (i j : Nat),
      p.truncate = "round_robin" →
      trim_inputs p inputs = Except.ok trimmed →
      i < inputs.length → j < (inputs.getD i []).length →
      (trimmed.getD i []).getD j []
        = ((inputs.getD i []).getD j []).take
            ((roundRobinLens (rowLensAt inputs j)
              (p.sequence_length - 2 * inputs.length).toNat).getD i 0)) := by
  refine ⟨roundRobinLens_sum, roundRobinLens_getD_le,
    roundRobinLens_replicate_fair, ?_⟩
  intro p inputs trimmed i j htr h hi hj
  obtain ⟨-, -, htrim⟩ := trim_inputs_ok_elim h
  subst htrim
  rw [trimAll_row _ _ inputs i j hi hj, htr, trimRowLens_round_robin]

/-- Witness for C5: fairness at two equal segments of length 5 with budget 7
(allocations 4 and 3), and the trimmed pipeline row at a concrete
round-robin call. -/
theorem round_robin_allocation_witness :
    (4 : Nat) ≤ 3 + 1 ∧
    (([[[(1:Int), 2, 3], [1]], [[6, 7, 8], [2]]]
        : List (List (List Int))).getD 0 []).getD 0 []
      = ((([[[(1:Int), 2, 3, 4, 5], [1]], [[6, 7, 8, 9], [2]]]
          : List (List (List Int))).getD 0 []).getD 0 []).take
          ((roundRobinLens (rowLensAt [[[(1:Int), 2, 3, 4, 5], [1]], [[6, 7, 8, 9], [2]]] 0)
            (((⟨10, 9, 8, 0, "round_robin"⟩ : Packer).sequence_length
              - 2 * ([[[(1:Int), 2, 3, 4, 5], [1]], [[6, 7, 8, 9], [2]]]
                : List (List (List Int))).length).toNat)).getD 0 0) :=
  ⟨round_robin_allocation.2.2.1 2 5 7 4 (by decide) 3 (by decide),
   round_robin_allocation.2.2.2 ⟨10, 9, 8, 0, "round_robin"⟩
     [[[1, 2, 3, 4, 5], [1]], [[6, 7, 8, 9], [2]]]
     [[[1, 2, 3], [1]], [[6, 7, 8], [2]]] 0 0 rfl rfl (by decide) (by decide)⟩

/-- C6: constructing a packer with a `truncate` value other than
`"round_robin"` or `"waterfall"` fails at construction time with the
configuration error (the source raises `ValueError`). -/
theorem mkPacker_invalid_truncate :
    ∀ (L s e pv : Int) (t : String), t ≠ "round_robin" → t ≠ "waterfall" →
      mkPacker L s e pv t = Except.error PackerError.ConfigurationError := by
  intro L s e pv t h1 h2
  unfold mkPacker
  rw [if_neg (by tauto)]

/-- Witness for C6 at the concrete invalid strategy name `"bogus"`. -/
theorem mkPacker_invalid_truncate_witness :
    mkPacker 10 9 8 0 "bogus" = Except.error PackerError.ConfigurationError :=
  mkPacker_invalid_truncate 10 9 8 0 "bogus" (by decide) (by decide)

/-- Counterexample to C7: the constructor accepts `sequence_length = 0` (and
`-5`) without raising; no validation of `sequence_length` happens at
construction time, contradicting the claim that such construction fails with
a configuration error. -/
theorem mkPacker_accepts_nonpositive_sequence_length :
    mkPacker 0 9 8 0 "round_robin"
        = Except.ok ⟨0, 9, 8, 0, "round_robin"⟩
    ∧ mkPacker (-5) 9 8 0 "round_robin"
        = Except.ok ⟨-5, 9, 8, 0, "round_robin"⟩ := ⟨rfl, rfl⟩

/-- C7 (amended): construction stores `sequence_length` unvalidated (zero or
negative values are accepted when `truncate` is valid), and every call whose
computed budget `sequence_length - 2 * S` is negative fails with the
configuration error. -/
theorem roberta_config_errors :
    (∀ (L s e pv : Int),
      mkPacker L s e pv "round_robin" = Except.ok ⟨L, s, e, pv, "round_robin"⟩)
    ∧ (∀ (p : Packer) (inputs : List (List (List Int))),
      p.sequence_length - 2 * inputs.length < 0 →
      call2 p inputs = Except.error PackerError.ConfigurationError) := by
  constructor
  · intro L s e pv
    unfold mkPacker
    rw [if_pos (Or.inl rfl)]
  · intro p inputs h
    exact call2_error_of_trim (trim_inputs_neg_budget h)

/-- Witness for C7 (amended) at `sequence_length = 1` with one segment:
budget `1 - 2 < 0`, so the call fails with the configuration error. -/
theorem roberta_config_errors_witness :
    call2 ⟨1, 9, 8, 0, "round_robin"⟩ [[[1]]]
      = Except.error PackerError.ConfigurationError :=
  roberta_config_errors.2 ⟨1, 9, 8, 0, "round_robin"⟩ [[[1]]] (by decide)

/-- C8: when the supplied segment batches disagree on the number of examples,
the call fails with the shape error (provided the configuration itself is
valid, which is checked first). -/
theorem roberta_shape_mismatch :
    ∀ (p : Packer) (inputs : List (List (List Int))) (s1 s2 : List (List Int)),
      (p.truncate = "round_robin" ∨ p.truncate = "waterfall") →
      0 ≤ p.sequence_length - 2 * inputs.length →
      s1 ∈ inputs → s2 ∈ inputs → s1.length ≠ s2.length →
      call2 p inputs = Except.error PackerError.ShapeError := by
  intro p inputs s1 s2 hval hbud hs1 hs2 hne
  have h1 := trim_inputs_eq_ok hval hbud
  set trimmed := trimAll p.truncate (p.sequence_length - 2 * inputs.length).toNat inputs with htrim
  have hml : trimmed.map List.length = inputs.map List.length :=
    trimAll_map_length _ _ inputs
  have hm1 : s1.length ∈ trimmed.map List.length := by
    rw [hml]
    exact List.mem_map_of_mem List.length hs1
  have hm2 : s2.length ∈ trimmed.map List.length := by
    rw [hml]
    exact List.mem_map_of_mem List.length hs2
  obtain ⟨u, hu, hulen⟩ := List.mem_map.mp hm1
  obtain ⟨v, hv, hvlen⟩ := List.mem_map.mp hm2
  cases hcons : trimmed with
  | nil =>
    rw [hcons] at hu
    exact absurd hu (List.not_mem_nil u)
  | cons t0 trest =>
    have hmm : ∃ s ∈ trest, s.length ≠ t0.length := by
      by_contra hall
      push_neg at hall
      have heq : ∀ w ∈ trimmed, w.length = t0.length := by
        intro w hw
        rw [hcons] at hw
        rcases List.mem_cons.mp hw with rfl | hw2
        · rfl
        · exact hall w hw2
      have e1 : s1.length = t0.length := by
        rw [← hulen]
        exact heq u hu
      have e2 : s2.length = t0.length := by
        rw [← hvlen]
        exact heq v hv
      exact hne (e1.trans e2.symm)
    have hcomb : combine_inputs p trimmed = Except.error PackerError.ShapeError := by
      rw [hcons]
      exact combine_inputs_mismatch hmm
    exact call2_error_of_combine h1 hcomb

/-- Witness for C8: segment batch 0 has two examples, segment batch 1 has
one, so the call fails with the shape error. -/
theorem roberta_shape_mismatch_witness :
    call2 ⟨10, 9, 8, 0, "round_robin"⟩ [[[1], [2]], [[3]]]
      = Except.error PackerError.ShapeError :=
  roberta_shape_mismatch ⟨10, 9, 8, 0, "round_robin"⟩ [[[1], [2]], [[3]]]
    [[1], [2]] [[3]] (Or.inl rfl) (by decide)
    (by simp) (by simp) (by decide)

theorem length_one_eq_sum (l : List Nat) (h : l.length = 1) : l = [l.sum] := by
  cases l with
  | nil => simp at h
  | cons a t =>
    cases t with
    | nil => simp
    | cons b t2 => simp at h

theorem roundRobinLens_single (l b : Nat) : roundRobinLens [l] b = [min l b] := by
  have h1 := roundRobinLens_length [l] b
  have h2 := roundRobinLens_sum [l] b
  have h3 := length_one_eq_sum _ (by simpa using h1)
  rw [h3, h2]
  simp

theorem trimRowLens_single (tr : String)
    (hval : tr = "round_robin" ∨ tr = "waterfall") (l b : Nat) :
    trimRowLens tr b [l] = [min l b] := by
  rcases hval with rfl | rfl
  · rw [trimRowLens_round_robin, roundRobinLens_single]
  · rw [trimRowLens_waterfall]
    simp [waterfallLens]

/-- C9: re-packing an already-packed sequence whose content length equals the
available budget is a no-op in the trimming stage: no token is removed from
any row, under either truncation strategy. -/
theorem roberta_pack_idempotent :
    ∀ (p : Packer) (rows : List (List Int)),
      (p.truncate = "round_robin" ∨ p.truncate = "waterfall") →
      0 ≤ p.sequence_length - 2 →
      (∀ row ∈ rows, (row.length : Int) = p.sequence_length - 2) →
      trim_inputs p [rows] = Except.ok [rows] := by
  intro p rows hval hbud hlen
  have hb2 : p.sequence_length - 2 * (([rows] : List (List (List Int))).length : Int)
      = p.sequence_length - 2 := by
    simp
  rw [trim_inputs_eq_ok hval (by rw [hb2]; exact hbud)]
  congr 1
  unfold trimAll
  have hlen1 : ([rows] : List (List (List Int))).length = 1 := rfl
  rw [hlen1]
  have hr1 : List.range 1 = [0] := rfl
  rw [hr1, List.map_cons, List.map_nil]
  congr 1
  have hget : ([rows] : List (List (List Int))).getD 0 [] = rows := rfl
  rw [hget]
  apply List.ext_getElem
  · simp
  · intro j h1 h2
    simp only [List.getElem_map, List.getElem_range]
    have hrl : rowLensAt [rows] j = [(rows.getD j []).length] := rfl
    rw [hrl, List.getD_eq_getElem _ _ h2]
    have hmem := List.getElem_mem h2
    have hrow := hlen _ hmem
    have hbudval : (rows[j]).length
        = (p.sequence_length - 2 * ((1 : Nat) : Int)).toNat := by
      omega
    rw [trimRowLens_single p.truncate hval]
    rw [← hbudval]
    simp only [Nat.min_self, List.getD_cons_zero]
    exact List.take_length _

/-- Witness for C9: a one-row batch of content length 4 with
`sequence_length = 6` (budget 4) passes through trimming unchanged. -/
theorem roberta_pack_idempotent_witness :
    trim_inputs ⟨6, 1, 2, 0, "waterfall"⟩ [[[5, 6, 7, 9]]]
      = Except.ok [[[5, 6, 7, 9]]] :=
  roberta_pack_idempotent ⟨6, 1, 2, 0, "waterfall"⟩ [[5, 6, 7, 9]]
    (Or.inr rfl) (by decide) (by decide)

theorem call2_row_head {p : Packer} {inputs : List (List (List Int))}
    {rows : List (List Int)} (hL : 1 ≤ p.sequence_length)
    (h : call2 p inputs = Except.ok rows) :
    ∀ row ∈ rows, row.head? = some p.start_value := by
  obtain ⟨trimmed, combined, h1, h2, h3⟩ := call2_ok_elim h
  obtain ⟨s0, rest, hcons, -, hrows⟩ := combine_inputs_ok_elim h2
  intro row hrow
  subst h3
  rcases List.mem_map.mp hrow with ⟨c, hc, rfl⟩
  subst hrows
  rcases List.mem_map.mp hc with ⟨j, -, rfl⟩
  rw [hcons, List.map_cons]
  show (padToLength p.sequence_length.toNat p.pad_value
    (combineRow p ((s0.getD j []) :: rest.map fun s => s.getD j []))).head?
      = some p.start_value
  obtain ⟨m, hm⟩ : ∃ m, p.sequence_length.toNat = m + 1 := by
    refine ⟨p.sequence_length.toNat - 1, ?_⟩
    omega
  show ((combineRow p _).take _ ++ _).head? = _
  rw [hm]
  show ((([p.start_value] ++ _ ++ [p.end_value]) ++ _).take (m + 1) ++ _).head? = _
  rw [List.singleton_append, List.cons_append, List.cons_append,
    List.take_succ_cons, List.cons_append, List.head?_cons]

/-- C10: whenever the call produces output and `sequence_length ≥ 1`, position
0 of every output row is `start_value` — trimming can at most empty the
segments and the defensive final truncation removes tokens only from the
right, so the leading `start_value` always survives. Holds for batched and
for single-example input. -/
theorem roberta_row_starts_with_start_value :
    (∀ (p : Packer) (inputs : List (List (List Int))) (rows : List (List Int)),
      1 ≤ p.sequence_length → call2 p inputs = Except.ok rows →
      ∀ row ∈ rows, row.head? = some p.start_value)
    ∧ (∀ (p : Packer) (inputs : List (List Int)) (row : List Int),
      1 ≤ p.sequence_length → call1 p inputs = Except.ok row →
      row.head? = some p.start_value) := by
  constructor
  · intro p inputs rows hL h
    exact call2_row_head hL h
  · intro p inputs row hL h
    exact call2_row_head hL (call1_ok_elim h) row (List.mem_singleton_self row)

/-- Witness for C10 at the concrete three-segment example. -/
theorem roberta_row_starts_witness :
    ([(9:Int), 1, 8, 8, 2, 8, 8, 3, 8, 0] : List Int).head?
      = some (⟨10, 9, 8, 0, "round_robin"⟩ : Packer).start_value :=
  roberta_row_starts_with_start_value.1 ⟨10, 9, 8, 0, "round_robin"⟩
    [[[1]], [[2]], [[3]]] [[9, 1, 8, 8, 2, 8, 8, 3, 8, 0]] (by decide) rfl
    [(9:Int), 1, 8, 8, 2, 8, 8, 3, 8, 0] (List.mem_singleton_self _)

end KerasNLP
